import Mathlib

set_option autoImplicit false

/-!
Shallow embedding of the `jztools.object_recorder` record/replay subsystem
(`object_recorder.py`, `recorded_attributes.py`, `call_unordered.py`,
`recording_switch_utils.py`, `global_time.py`, `rentemp.py`).

Python values are modelled by `PyVal`; objects carry an explicit attribute
table and a call table (arguments to returned value), replacing the dynamic
attribute interception of the source with explicit dispatch.  Timestamps are
modelled as integers.  Lists inside `PyVal` use dedicated spine types
(`PyList`, ...) so that decidable equality can be derived.
-/

namespace JZ

mutual

/-- Model of the Python values that flow through the recorder.  The leaf
constructors mirror `NativelyHandledTypes` in `recorded_attributes.py`
(`Number, str, bytes, type, None, np.dtype, np.ndarray, np.datetime64,
np.timedelta64`), the containers mirror the tuple/list/set/dict cases of
`RecordedAttribute.can_handle_natively`, and `obj` stands for any other
Python object, carrying an explicit attribute table (for `getattr`) and call
table (for `__call__`). -/
inductive PyVal where
  | num (n : Int)
  | str (s : String)
  | bytes (bs : List Nat)
  | pytype (nm : String)
  | pynone
  | npDtype (d : String)
  | npArray (xs : List Int)
  | npDatetime64 (t : Int)
  | npTimedelta64 (t : Int)
  | tuple (xs : PyList)
  | pylist (xs : PyList)
  | pyset (xs : PyList)
  | dict (xs : DictList)
  | obj (attrs : AttrList) (calls : CallList)

/-- A list of Python values (elements of a tuple/list/set, or positional
call arguments). -/
inductive PyList where
  | nil
  | cons (head : PyVal) (tail : PyList)

/-- The `key: value` pairs of a Python dict value. -/
inductive DictList where
  | nil
  | cons (key : PyVal) (val : PyVal) (tail : DictList)

/-- The named attributes of a modelled object (its `getattr` table). -/
inductive AttrList where
  | nil
  | cons (name : String) (val : PyVal) (tail : AttrList)

/-- The call table of a modelled callable: rows `(args, kwargs) -> value`.
An empty table models a non-callable object or a call that raises. -/
inductive CallList where
  | nil
  | cons (args : PyList) (kwargs : KwList) (val : PyVal) (tail : CallList)

/-- Keyword arguments, `key=value` pairs in insertion order. -/
inductive KwList where
  | nil
  | cons (key : String) (val : PyVal) (tail : KwList)

end

deriving instance DecidableEq for PyVal, PyList, DictList, AttrList, CallList, KwList
deriving instance Repr for PyVal, PyList, DictList, AttrList, CallList, KwList

mutual

/-- `RecordedAttribute.can_handle_natively`: a value is handled natively when
it is one of the managed leaf types, or a tuple/list/set all of whose elements
are handled natively, or a dict all of whose keys and values are handled
natively.  Any other object (`obj`) is not handled natively. -/
def can_handle_natively : PyVal → Bool
  | .num _ => true
  | .str _ => true
  | .bytes _ => true
  | .pytype _ => true
  | .pynone => true
  | .npDtype _ => true
  | .npArray _ => true
  | .npDatetime64 _ => true
  | .npTimedelta64 _ => true
  | .tuple xs => allNative xs
  | .pylist xs => allNative xs
  | .pyset xs => allNative xs
  | .dict xs => allNativePairs xs
  | .obj _ _ => false

/-- `all(cls.can_handle_natively(_x) for _x in value)`. -/
def allNative : PyList → Bool
  | .nil => true
  | .cons x xs => can_handle_natively x && allNative xs

/-- Conjunction of `can_handle_natively` over the keys and values of a dict. -/
def allNativePairs : DictList → Bool
  | .nil => true
  | .cons k v xs => can_handle_natively k && can_handle_natively v && allNativePairs xs

end

/-- Look up an attribute by name in an attribute table. -/
def findAttr (name : String) : AttrList → Option PyVal
  | .nil => none
  | .cons n v rest => if n = name then some v else findAttr name rest

/-- Look up a call-table row matching the given positional and keyword
arguments. -/
def findCall (args : PyList) (kwargs : KwList) : CallList → Option PyVal
  | .nil => none
  | .cons a k v rest => if a = args ∧ k = kwargs then some v else findCall args kwargs rest

/-- `getattr(obj, name)` on the model: only `obj` values expose attributes;
a missing attribute (or a leaf value) raises `AttributeError`, modelled as
`none`. -/
def getattr : PyVal → String → Option PyVal
  | .obj attrs _, name => findAttr name attrs
  | _, _ => none

/-- Invoking a Python value as a callable: only `obj` values with an entry in
their call table for the given arguments return a value; everything else (or
an exception inside the callee) is modelled as `none`. -/
def callValue : PyVal → PyList → KwList → Option PyVal
  | .obj _ calls, args, kwargs => findCall args kwargs calls
  | _, _, _ => none

/-! ## Recording side (`ObjectRecorder`, `RecordedAttribute`, `RecordedCall`) -/

mutual

/-- The `value` field of a `RecordedAttribute`/`RecordedCall`: either a
natively-handled value stored as-is, or a nested `ObjectRecorder` wrapping a
non-native value (`RecordedAttribute.__init__` wraps the value in
`ObjectRecorder(value)`).  A recorder is its wrapped object together with its
`recordings` log. -/
inductive RAValue where
  | native (v : PyVal)
  | wrapped (obj : PyVal) (recordings : List RecEntry)

/-- One entry of a recording log: a `RecordedAttribute` (`attr`) or a
`RecordedCall` (`call`; its `name` defaults to the reserved marker
`"__call__"`). -/
inductive RecEntry where
  | attr (name : String) (value : RAValue) (access_time : Int)
  | call (name : String) (args : PyList) (kwargs : KwList) (value : RAValue) (access_time : Int)

end

/-- The state of an `ObjectRecorder`: the wrapped object and the append-only
`recordings` log. -/
structure ObjectRecorder where
  obj : PyVal
  recordings : List RecEntry

/-- `ObjectRecorder.__init__`: stores the wrapped object untouched and starts
with an empty `recordings` log. -/
def ObjectRecorder.new (o : PyVal) : ObjectRecorder := ⟨o, []⟩

/-- The value stored by `RecordedAttribute.__init__`:
`value if self.can_handle_natively(value) else ObjectRecorder(value)`.
The non-native case creates a fresh recorder (empty log) around the value. -/
def recordedValue (v : PyVal) : RAValue :=
  if can_handle_natively v then .native v else .wrapped v []

/-- Exceptions raised by the wrapped live object and propagated unchanged by
the recorder. -/
inductive PyErr where
  | attributeError
  | typeError
  deriving DecidableEq, Repr

/-- `ObjectRecorder._getattribute`: capture the access time, perform
`getattr(obj, name)` (an exception propagates with the log untouched), build a
`RecordedAttribute`, append it, and return the entry's (possibly wrapped)
value. -/
def recorder_getattribute (r : ObjectRecorder) (name : String) (t : Int) :
    Except PyErr RAValue × ObjectRecorder :=
  match getattr r.obj name with
  | none => (.error .attributeError, r)
  | some v =>
      let stored := recordedValue v
      (.ok stored, ⟨r.obj, r.recordings ++ [.attr name stored t]⟩)

/-- `ObjectRecorder._call`: capture the call time, invoke the wrapped object
(an exception propagates with the log untouched), append a `RecordedCall`
(name defaulting to `"__call__"`), and return the call record's value. -/
def recorder_call (r : ObjectRecorder) (args : PyList) (kwargs : KwList) (t : Int) :
    Except PyErr RAValue × ObjectRecorder :=
  match callValue r.obj args kwargs with
  | none => (.error .typeError, r)
  | some v =>
      let stored := recordedValue v
      (.ok stored, ⟨r.obj, r.recordings ++ [.call "__call__" args kwargs stored t]⟩)

/-! ## Serialized form (`as_serializable` / `from_serializable`) -/

mutual

/-- A serialized recorded value: a natively-handled value, or the serialized
form of a nested `ObjectRecorder` (its serialized `recordings`;
`ObjectRecorder.as_serializable`). -/
inductive SerValue where
  | native (v : PyVal)
  | recObj (recordings : List SerEntry)

/-- A serialized log entry.  An attribute entry always carries its name; a
call entry's `name` key is dropped (`none`) when it equals the default
`"__call__"` (`RecordedCall.as_serializable` pops it). -/
inductive SerEntry where
  | attr (name : String) (value : SerValue) (access_time : Int)
  | call (name : Option String) (args : PyList) (kwargs : KwList) (value : SerValue) (access_time : Int)

end

mutual

/-- Size measure on recorded values, used only to justify termination of the
serializer. -/
def sizeRA : RAValue → Nat
  | .native _ => 1
  | .wrapped _ recs => 1 + sizeRecList recs

/-- Size measure on recording entries. -/
def sizeRec : RecEntry → Nat
  | .attr _ v _ => 1 + sizeRA v
  | .call _ _ _ v _ => 1 + sizeRA v

/-- Size measure on recording logs. -/
def sizeRecList : List RecEntry → Nat
  | [] => 0
  | e :: es => 1 + sizeRec e + sizeRecList es

end

mutual

/-- `RecordedAttribute.as_serializable` / `RecordedCall.as_serializable`.
For an attribute whose value is a recorder holding exactly one recorded call,
`get_nested_call` collapses the nesting into a single call entry named after
the attribute (keeping the inner call's args/kwargs/value/time).  For a call
entry, the `args`/`kwargs` are its own, the value and access time come from
`serValTime`, and the name is dropped when it equals the default
`"__call__"`. -/
def serEntry : RecEntry → SerEntry
  | .attr name (.wrapped _ [.call _ iargs ikw ivalue it]) t =>
      let p := serValTime ivalue it
      let _ := t
      .call (some name) iargs ikw p.1 p.2
  | .attr name value t => .attr name (serRA value) t
  | .call name args kwargs value t =>
      let p := serValTime value t
      .call (if name = "__call__" then none else some name) args kwargs p.1 p.2
termination_by e => sizeRec e
decreasing_by all_goals (simp [sizeRec, sizeRA, sizeRecList]; try omega)

/-- The `value`/`access_time` fields emitted for a call entry: when the call's
own value is a single-call recorder, `get_nested_call` applies inside
`super().as_serializable()`, so the inner call's value and access time are
kept (outer `args`/`kwargs`/`name` overwrite the inner ones).  The non-nested
cases serialize the value as `serRA` does (inlined here so that the measure
decreases on every call). -/
def serValTime : RAValue → Int → SerValue × Int
  | .wrapped _ [.call _ _ _ ivalue it], _ => serValTime ivalue it
  | .wrapped _ recs, t => (.recObj (serLog recs), t)
  | .native v, t => (.native v, t)
termination_by v _ => sizeRA v
decreasing_by all_goals (simp [sizeRec, sizeRA, sizeRecList]; try omega)

/-- Serializes a recorded value: native values pass through; a nested
`ObjectRecorder` serializes as its serialized recordings
(`ObjectRecorder.as_serializable`). -/
def serRA : RAValue → SerValue
  | .native v => .native v
  | .wrapped _ recs => .recObj (serLog recs)
termination_by v => sizeRA v
decreasing_by all_goals (simp [sizeRec, sizeRA, sizeRecList]; try omega)

/-- Serializes a recording log entry by entry. -/
def serLog : List RecEntry → List SerEntry
  | [] => []
  | e :: es => serEntry e :: serLog es
termination_by l => sizeRecList l
decreasing_by all_goals (simp [sizeRec, sizeRA, sizeRecList]; try omega)

end

/-! ## Playback side (`ObjectPlayer`, `PlayedBackAttribute`, `PlayedBackCall`) -/

mutual

/-- A played-back value: a natively-handled value, or a nested `ObjectPlayer`
holding its own drainable log. -/
inductive PBValue where
  | native (v : PyVal)
  | player (recordings : List PBEntry)

/-- One played-back log entry (`PlayedBackAttribute` / `PlayedBackCall`).
A `PlayedBackCall`'s name is `Option String`: `RecordedCall.from_serializable`
passes the deserialized `name` through unchanged, so a serialized call entry
without a name yields `name = none` — the `setdefault` in `_Call.__init__`
does not replace an explicitly passed `None`. -/
inductive PBEntry where
  | attr (name : String) (value : PBValue) (access_time : Int)
  | call (name : Option String) (args : PyList) (kwargs : KwList) (value : PBValue) (access_time : Int)

end

mutual

/-- `RecordedAttribute.from_serializable` / `RecordedCall.from_serializable`:
rebuild `PlayedBackAttribute`/`PlayedBackCall` entries.  The call entry's
optional name is forwarded as-is (`PlayedBackCall(..., name=name)`). -/
def deserEntry : SerEntry → PBEntry
  | .attr name v t => .attr name (deserVal v) t
  | .call name args kwargs v t => .call name args kwargs (deserVal v) t

/-- `ObjectRecorder.from_serializable` turns a serialized nested recorder into
an `ObjectPlayer` over the deserialized recordings. -/
def deserVal : SerValue → PBValue
  | .native v => .native v
  | .recObj entries => .player (deserLog entries)

/-- Deserializes a log entry by entry. -/
def deserLog : List SerEntry → List PBEntry
  | [] => []
  | e :: es => deserEntry e :: deserLog es

end

/-- Playback protocol errors (`NoCallRecordsLeft`, `NonMatchingRequest`,
`NonMatchingCallArgs`) plus a `TypeError` marker for invoking a value that is
not invokable. -/
inductive PBErr where
  | noCallRecordsLeft
  | nonMatchingRequest
  | nonMatchingCallArgs
  | typeError
  deriving DecidableEq, Repr

/-- The `name` of a played-back entry as compared by
`ObjectPlayer._getattribute` (`rec.name`). -/
def PBEntry.pbName : PBEntry → Option String
  | .attr n _ _ => some n
  | .call n _ _ _ _ => n

/-- What `ObjectPlayer._getattribute` hands back on success: a plain
attribute's recorded value, or — for a call record — the entry itself as an
invokable object. -/
inductive PBGot where
  | val (v : PBValue)
  | callEntry (name : Option String) (args : PyList) (kwargs : KwList)
      (value : PBValue) (access_time : Int)

/-- `ObjectPlayer._getattribute`: an empty log raises `NoCallRecordsLeft`; a
front entry whose name differs from the request raises `NonMatchingRequest`
without consuming the entry; otherwise the front entry is popped and either
returned itself (call record) or its value is returned (plain attribute).
The log after the operation is returned alongside. -/
def player_getattribute : List PBEntry → String → Except PBErr PBGot × List PBEntry
  | [], _ => (.error .noCallRecordsLeft, [])
  | e :: rest, name =>
      if e.pbName = some name then
        match e with
        | .call n a k v t => (.ok (.callEntry n a k v t), rest)
        | .attr _ v _ => (.ok (.val v), rest)
      else (.error .nonMatchingRequest, e :: rest)

/-- `PlayedBackCall.__call__`: raise `NonMatchingCallArgs` unless the supplied
arguments equal the recorded ones (`self.args == args and
self.kwargs == kwargs`), else return the recorded value. -/
def pbcall_invoke (cargs : PyList) (ckwargs : KwList) (cvalue : PBValue)
    (args : PyList) (kwargs : KwList) : Except PBErr PBValue :=
  if cargs = args ∧ ckwargs = kwargs then .ok cvalue else .error .nonMatchingCallArgs

/-- `ObjectPlayer._call`: read the reserved `"__call__"` attribute (obtaining
a call record) and invoke it.  On `NonMatchingCallArgs` the source runs
`self._append(recording)` as an undo — but `ObjectPlayer` defines no
`_append`, and the attribute access goes through the patched
`__getattribute__`, which *plays back* an attribute named `"_append"` from
the log; the exception that raises replaces the original one, and the popped
entry is never restored.  (If a played-back `"_append"` entry did exist, it
would be invoked with the popped `PlayedBackCall` object as sole argument;
deserialized recorded arguments can never equal that live object, so
`NonMatchingCallArgs` would be raised from the undo attempt; a plain
attribute value is not callable.) -/
def player_call (log : List PBEntry) (args : PyList) (kwargs : KwList) :
    Except PBErr PBValue × List PBEntry :=
  match player_getattribute log "__call__" with
  | (.error e, l) => (.error e, l)
  | (.ok (.val _), l) => (.error .typeError, l)
  | (.ok (.callEntry _ ca ck cv _), l) =>
      match pbcall_invoke ca ck cv args kwargs with
      | .ok v => (.ok v, l)
      | .error _ =>
          match player_getattribute l "_append" with
          | (.error e2, l2) => (.error e2, l2)
          | (.ok (.callEntry _ _ _ _ _), l2) => (.error .nonMatchingCallArgs, l2)
          | (.ok (.val _), l2) => (.error .typeError, l2)

/-! ## Interaction sequences and the record/replay drivers

An interaction is one thing the client code does to the proxy: read an
attribute, read an attribute and immediately call the result once (the usual
method-call pattern), or call the proxy itself.  Each interaction produces an
observation: the returned natively-handled value, a proxy (recorder or
player), an invokable played-back call record, a propagated exception from
the live object, or a playback protocol error.  A run stops at the first
exception/error, as the exception would propagate out of the client code. -/

/-- One client interaction with a proxy. -/
inductive Interaction where
  | attrRead (name : String)
  | methodCall (name : String) (args : PyList) (kwargs : KwList)
  | directCall (args : PyList) (kwargs : KwList)
  deriving DecidableEq, Repr

/-- What the client observes from one interaction. -/
inductive Obs where
  | val (v : PyVal)
  | proxy
  | invokable
  | raised (e : PyErr)
  | err (e : PBErr)
  deriving DecidableEq, Repr

/-- Observation of a value returned while recording: a natively-handled value
shows as itself, a nested recorder shows as a proxy. -/
def obsOfRA : RAValue → Obs
  | .native v => .val v
  | .wrapped _ _ => .proxy

/-- Observation of a value returned during playback: a natively-handled value
shows as itself, a nested player shows as a proxy. -/
def obsOfPB : PBValue → Obs
  | .native v => .val v
  | .player _ => .proxy

/-- Runs a sequence of interactions against an `ObjectRecorder`, returning
the observations and the final recorder.  `attrRead` and `directCall` are
`ObjectRecorder._getattribute` and `ObjectRecorder._call`.  `methodCall` is
their composition: the attribute read appends a `RecordedAttribute` holding a
fresh nested recorder around the (non-native) attribute value, and calling
the returned wrapper appends a `RecordedCall` to that nested recorder — the
wrapper aliased inside the just-appended log entry — so the appended entry
ends up holding the one-call nested log.  Calling a natively-handled
attribute value, or a value with no matching call-table row, raises. -/
def record_run (r : ObjectRecorder) (t : Int) : List Interaction → List Obs × ObjectRecorder
  | [] => ([], r)
  | i :: is =>
    match i with
    | .attrRead name =>
      match recorder_getattribute r name t with
      | (.error e, r2) => ([.raised e], r2)
      | (.ok stored, r2) =>
          let p := record_run r2 (t + 1) is
          (obsOfRA stored :: p.1, p.2)
    | .methodCall name args kwargs =>
      match getattr r.obj name with
      | none => ([.raised .attributeError], r)
      | some v =>
        if can_handle_natively v then
          -- the read returned the bare value and appended it; calling it
          -- then raises a TypeError that propagates unchanged
          ([.raised .typeError], ⟨r.obj, r.recordings ++ [.attr name (.native v) t]⟩)
        else
          match callValue v args kwargs with
          | none =>
              ([.raised .typeError],
               ⟨r.obj, r.recordings ++ [.attr name (.wrapped v []) t]⟩)
          | some rv =>
              let stored := recordedValue rv
              let entry : RecEntry :=
                .attr name (.wrapped v [.call "__call__" args kwargs stored (t + 1)]) t
              let p := record_run ⟨r.obj, r.recordings ++ [entry]⟩ (t + 2) is
              (obsOfRA stored :: p.1, p.2)
    | .directCall args kwargs =>
      match recorder_call r args kwargs t with
      | (.error e, r2) => ([.raised e], r2)
      | (.ok stored, r2) =>
          let p := record_run r2 (t + 1) is
          (obsOfRA stored :: p.1, p.2)

/-- Runs the same interaction sequence against an `ObjectPlayer` log,
returning the observations and the remaining log.  `attrRead` and
`directCall` are `ObjectPlayer._getattribute` and `ObjectPlayer._call`;
`methodCall` reads the attribute and calls what came back: a collapsed
`PlayedBackCall` is invoked directly, a nested player is invoked through its
own `ObjectPlayer._call`, and a natively-handled value is not callable. -/
def playback_run (log : List PBEntry) : List Interaction → List Obs × List PBEntry
  | [] => ([], log)
  | i :: is =>
    match i with
    | .attrRead name =>
      match player_getattribute log name with
      | (.error e, l2) => ([.err e], l2)
      | (.ok (.val v), l2) =>
          let p := playback_run l2 is
          (obsOfPB v :: p.1, p.2)
      | (.ok (.callEntry _ _ _ _ _), l2) =>
          let p := playback_run l2 is
          (.invokable :: p.1, p.2)
    | .methodCall name args kwargs =>
      match player_getattribute log name with
      | (.error e, l2) => ([.err e], l2)
      | (.ok (.callEntry _ ca ck cv _), l2) =>
          match pbcall_invoke ca ck cv args kwargs with
          | .ok v =>
              let p := playback_run l2 is
              (obsOfPB v :: p.1, p.2)
          | .error e => ([.err e], l2)
      | (.ok (.val (.player plog)), l2) =>
          -- the nested player's own log is consumed and then dropped: the
          -- popped outer entry is no longer reachable from the outer log
          match player_call plog args kwargs with
          | (.ok v, _) =>
              let p := playback_run l2 is
              (obsOfPB v :: p.1, p.2)
          | (.error e, _) => ([.err e], l2)
      | (.ok (.val (.native _)), l2) => ([.err .typeError], l2)
    | .directCall args kwargs =>
      match player_call log args kwargs with
      | (.ok v, l2) =>
          let p := playback_run l2 is
          (obsOfPB v :: p.1, p.2)
      | (.error e, l2) => ([.err e], l2)

/-! ## Recording switch (`recording_switch_utils.py`) -/

/-- The user-selectable recording modes (`RecMode`). -/
inductive RecMode where
  | PLAYBACK
  | LIVE
  | FORCE_LIVE
  | RECORD
  | OVERWRITE
  deriving DecidableEq, Repr

/-- `recording_switch.effective_rec_mode`: `RECORD` resolves to `OVERWRITE`
when no log file exists at the resolved path and to `PLAYBACK` otherwise;
`LIVE` resolves to `PLAYBACK`; the remaining modes resolve to themselves. -/
def effective_rec_mode (rec_mode : RecMode) (fileExists : Bool) : RecMode :=
  match rec_mode with
  | .RECORD => if !fileExists then .OVERWRITE else .PLAYBACK
  | .LIVE => .PLAYBACK
  | .FORCE_LIVE => .FORCE_LIVE
  | .PLAYBACK => .PLAYBACK
  | .OVERWRITE => .OVERWRITE

/-- The message of the `RecordingFileNotFoundError` raised by
`recording_switch._load` when the serializer reports a missing file. -/
def recording_not_found_msg (filename env_var : String) : String :=
  "No recording file `" ++ filename ++ "`. Create one by setting env var `"
    ++ env_var ++ "=RECORD`."

/-- What entering a `recording_switch` scope hands back. -/
inductive EnterResult where
  | live
  | recordingProxy
  | playbackProxy
  | recordingFileNotFound (msg : String)
  | unexpected
  deriving DecidableEq, Repr

/-- Outcome of `recording_switch.__enter__` (via `extend_enter`): whether a
live object was built, and the kind of object returned (or the error
raised). -/
structure EnterOutcome where
  builds_live : Bool
  result : EnterResult
  deriving DecidableEq, Repr

/-- `recording_switch.__enter__`/`extend_enter` dispatch on the effective
mode: `FORCE_LIVE` builds and returns the live object; `OVERWRITE` builds the
live object and wraps it in a recording proxy (`build_recorded`); `PLAYBACK`
loads the recording file (`_load`), raising `RecordingFileNotFoundError` when
it is missing, and returns a playback proxy; any other effective mode would
raise (`Exception("Unexpected case.")`). -/
def switch_enter (rec_mode : RecMode) (fileExists : Bool)
    (filename env_var : String) : EnterOutcome :=
  match effective_rec_mode rec_mode fileExists with
  | .FORCE_LIVE => ⟨true, .live⟩
  | .OVERWRITE => ⟨true, .recordingProxy⟩
  | .PLAYBACK =>
      if fileExists then ⟨false, .playbackProxy⟩
      else ⟨false, .recordingFileNotFound (recording_not_found_msg filename env_var)⟩
  | _ => ⟨false, .unexpected⟩

/-! ## Atomic save on scope exit (`recording_switch._save` / `RenTempFile`) -/

/-- The serialized document written on exit:
`{"version": 0, "start_time": ..., "data": ...}` rendered to text.  The
component logs are rendered by an injective but otherwise arbitrary encoding
standing in for the external serializer. -/
structure RecDocument where
  version : Nat
  start_time : Int
  data : List (List SerEntry)

/-- Stand-in rendering of the document produced by the external serializer:
any function of the document; we keep it abstract but concrete enough to be
injective on the fields we care about by rendering with `reprStr`-like
markers. -/
def renderDoc (d : RecDocument) : String :=
  "\x7bversion: " ++ toString d.version ++ ", start_time: " ++ toString d.start_time
    ++ ", data entries: " ++ toString (d.data.map List.length) ++ "\x7d"

/-- The two files `RenTempFile` touches: the canonical target path and the
temporary file next to it (`none` = absent). -/
structure FileState where
  canonical : Option String
  temp : Option String
  deriving DecidableEq, Repr

/-- Micro-steps of `RenTempFile(target, mode="w", delete=True,
overwrite=True)` wrapped around `serializer.dump`: create the temporary file,
write the content chunk by chunk, and finally `shutil.move` the temporary
file onto the target. -/
inductive SaveStep where
  | openTemp
  | writeChunk (c : String)
  | renameTemp
  deriving DecidableEq, Repr

/-- Effect of one `RenTempFile` micro-step on the two files. -/
def applyStep (fs : FileState) : SaveStep → FileState
  | .openTemp => { fs with temp := some "" }
  | .writeChunk c => { fs with temp := fs.temp.map (· ++ c) }
  | .renameTemp => { canonical := fs.temp.orElse (fun _ => fs.canonical), temp := none }

/-- The step sequence of a successful save: open the temp file, write the
rendered document in the given chunks, rename over the target. -/
def saveSteps (chunks : List String) : List SaveStep :=
  .openTemp :: chunks.map .writeChunk ++ [.renameTemp]

/-- All file states visited while executing a list of steps (including the
initial and final states). -/
def statesOf (fs : FileState) : List SaveStep → List FileState
  | [] => [fs]
  | st :: rest => fs :: statesOf (applyStep fs st) rest

/-- The step sequence of a save interrupted after writing only some chunks:
the body raises before completion, so `RenTempFile` deletes the temporary
file (`delete=True`) and never renames. -/
def abortSteps (chunks : List String) : List SaveStep :=
  .openTemp :: chunks.map .writeChunk

/-- Deleting the temporary file (the `elif delete` branch of `RenTempFile`'s
`finally`). -/
def deleteTemp (fs : FileState) : FileState := { fs with temp := none }

/-- `recording_switch.__exit__`: when no exception is active and the
effective mode is `OVERWRITE`, `_save` runs (atomic write of the rendered
document); otherwise no file operation happens at all.  Returns the list of
file states traversed. -/
def switch_exit (excActive : Bool) (rec_mode : RecMode) (fileExists : Bool)
    (fs : FileState) (chunks : List String) : List FileState :=
  if !excActive && effective_rec_mode rec_mode fileExists = .OVERWRITE then
    statesOf fs (saveSteps chunks)
  else [fs]

/-! ## Virtual clock (`global_time.py`) -/

/-- `_GlobalTime.move_to(where, monotonic=True)` on an engaged (frozen)
clock: the current frozen instant plays the role of `datetime.now()`; the
clock moves to `where` iff `not monotonic or where > datetime.now()`. -/
def global_time_move_to (current : Int) (whereTo : Int) (monotonic : Bool) : Int :=
  if !monotonic || whereTo > current then whereTo else current

/-! ## Unordered call matching (`call_unordered.py`) -/

/-- One recorded call of the unordered-call recorder: arguments and the
recorded return value (`RecordedCall` restricted to what
`UnorderedCallPlayer` consumes). -/
structure UCall where
  args : List PyVal
  kwargs : List (String × PyVal)
  value : PyVal
  deriving DecidableEq, Repr

/-- Stable insertion of a keyword item into a key-sorted list (a kwarg item
goes before the first item whose key is not smaller). -/
def insertSorted (p : String × PyVal) : List (String × PyVal) → List (String × PyVal)
  | [] => [p]
  | q :: rest => if p.1 ≤ q.1 then p :: q :: rest else q :: insertSorted p rest

/-- `sorted(kwargs.items())`: stable sort of the keyword items by key. -/
def sortKwargs : List (String × PyVal) → List (String × PyVal)
  | [] => []
  | p :: rest => insertSorted p (sortKwargs rest)

/-- `general_arg_hasher`: a tuple of the positional args and of the kwarg
items sorted by keyword. -/
def general_arg_hasher (args : List PyVal) (kwargs : List (String × PyVal)) :
    List PyVal × List (String × PyVal) :=
  (args, sortKwargs kwargs)

/-- Argument hashers have the shape of `general_arg_hasher`: a function of
the positional and keyword arguments. -/
abbrev ArgHasher (K : Type) := List PyVal → List (String × PyVal) → K

/-- The hash of one recorded call (`self.arg_hasher(x.args, x.kwargs)`). -/
def hashOf {K : Type} (h : ArgHasher K) (c : UCall) : K := h c.args c.kwargs

/-- `itertools.groupby` without a preceding sort: consecutive runs of equal
keys, in order. -/
def groupRuns {K : Type} [DecidableEq K] (h : ArgHasher K) : List UCall → List (K × List UCall)
  | [] => []
  | c :: cs =>
    match groupRuns h cs with
    | [] => [(hashOf h c, [c])]
    | (k, g) :: rest =>
        if hashOf h c = k then (hashOf h c, c :: g) :: rest
        else (hashOf h c, [c]) :: (k, g) :: rest

/-- Python-dict insert: replace the value of an existing key in place, or
append a new key at the end. -/
def dictInsert {K V : Type} [DecidableEq K] (m : List (K × V)) (k : K) (v : V) : List (K × V) :=
  match m with
  | [] => [(k, v)]
  | (k2, v2) :: rest =>
      if k2 = k then (k2, v) :: rest else (k2, v2) :: dictInsert rest k v

/-- Python-dict lookup. -/
def dictFind {K V : Type} [DecidableEq K] (m : List (K × V)) (k : K) : Option V :=
  match m with
  | [] => none
  | (k2, v2) :: rest => if k2 = k then some v2 else dictFind rest k

/-- Python-dict `pop(k)` (key removal). -/
def dictRemove {K V : Type} [DecidableEq K] (m : List (K × V)) (k : K) : List (K × V) :=
  match m with
  | [] => []
  | (k2, v2) :: rest => if k2 = k then rest else (k2, v2) :: dictRemove rest k

/-- `UnorderedCallPlayer.__post_init__`: the recorded call list is turned
into a dict comprehension over `groupby(calls, hasher)` — consecutive runs
only, with a later run *overwriting* the bucket of an earlier run that has
the same hash. -/
def buildBuckets {K : Type} [DecidableEq K] (h : ArgHasher K) (calls : List UCall) :
    List (K × List UCall) :=
  (groupRuns h calls).foldl (fun m p => dictInsert m p.1 p.2) []

/-- Playback error of the unordered player. -/
inductive UErr where
  | noCallEntryForArgs
  | indexError
  deriving DecidableEq, Repr

/-- `UnorderedCallPlayer.__call__`: hash the arguments; a missing bucket
raises `NoCallEntryForArgs`; otherwise `group.pop()` removes the *last*
element of the bucket (LIFO) and the emptied bucket is dropped from the
dict; the popped entry's value is returned.  (`pop` on an empty group would
raise an `IndexError`; `buildBuckets` never creates empty groups.) -/
def ucp_call {K : Type} [DecidableEq K] (h : ArgHasher K)
    (st : List (K × List UCall)) (args : List PyVal) (kwargs : List (String × PyVal)) :
    Except UErr PyVal × List (K × List UCall) :=
  let k := h args kwargs
  match dictFind st k with
  | none => (.error .noCallEntryForArgs, st)
  | some g =>
    match g.getLast? with
    | none => (.error .indexError, st)
    | some c =>
        let g2 := g.dropLast
        let st2 := if g2.isEmpty then dictRemove st k else dictInsert st k g2
        (.ok c.value, st2)

/-- Plays a sequence of argument tuples, collecting results until the first
error. -/
def ucp_run {K : Type} [DecidableEq K] (h : ArgHasher K)
    (st : List (K × List UCall)) :
    List (List PyVal × List (String × PyVal)) → List (Except UErr PyVal) × List (K × List UCall)
  | [] => ([], st)
  | (args, kwargs) :: rest =>
    match ucp_call h st args kwargs with
    | (.error e, st2) => ([.error e], st2)
    | (.ok v, st2) =>
        let p := ucp_run h st2 rest
        (.ok v :: p.1, p.2)

/-! ## Auxiliary definitions used by the theorems -/

mutual

/-- Spec-side reading of "natively serializable": a Number, str, bytes, type,
None, numpy dtype/ndarray/datetime64/timedelta64, or a tuple/list/set/dict
composed recursively of these.  Stated independently of
`can_handle_natively` so that the equivalence below is a genuine check. -/
inductive NativeSpec : PyVal → Prop where
  | num (n : Int) : NativeSpec (.num n)
  | str (s : String) : NativeSpec (.str s)
  | bytes (bs : List Nat) : NativeSpec (.bytes bs)
  | pytype (nm : String) : NativeSpec (.pytype nm)
  | pynone : NativeSpec .pynone
  | npDtype (d : String) : NativeSpec (.npDtype d)
  | npArray (xs : List Int) : NativeSpec (.npArray xs)
  | npDatetime64 (t : Int) : NativeSpec (.npDatetime64 t)
  | npTimedelta64 (t : Int) : NativeSpec (.npTimedelta64 t)
  | tuple {xs : PyList} : NativeSpecList xs → NativeSpec (.tuple xs)
  | pylist {xs : PyList} : NativeSpecList xs → NativeSpec (.pylist xs)
  | pyset {xs : PyList} : NativeSpecList xs → NativeSpec (.pyset xs)
  | dict {xs : DictList} : NativeSpecDict xs → NativeSpec (.dict xs)

/-- All elements natively serializable. -/
inductive NativeSpecList : PyList → Prop where
  | nil : NativeSpecList .nil
  | cons {x : PyVal} {xs : PyList} :
      NativeSpec x → NativeSpecList xs → NativeSpecList (.cons x xs)

/-- All keys and values natively serializable. -/
inductive NativeSpecDict : DictList → Prop where
  | nil : NativeSpecDict .nil
  | cons {k v : PyVal} {xs : DictList} :
      NativeSpec k → NativeSpec v → NativeSpecDict xs → NativeSpecDict (.cons k v xs)

end

/-- Replays a list of attribute requests by name through
`ObjectPlayer._getattribute`, stopping at the first playback error; returns
the error (if any) and the remaining log. -/
def replay_names : List PBEntry → List String → Option PBErr × List PBEntry
  | l, [] => (none, l)
  | l, n :: ns =>
    match player_getattribute l n with
    | (.error e, l2) => (some e, l2)
    | (.ok _, l2) => replay_names l2 ns

/-- The grouping asserted by the claim for the unordered player: *all*
recorded calls grouped by their hash (insertion order within each bucket),
not just consecutive runs.  Used only to exhibit the divergence from
`buildBuckets`. -/
def claimBuckets {K : Type} [DecidableEq K] (h : ArgHasher K) (calls : List UCall) :
    List (K × List UCall) :=
  calls.foldl
    (fun m c =>
      match dictFind m (hashOf h c) with
      | none => m ++ [(hashOf h c, [c])]
      | some g => dictInsert m (hashOf h c) (g ++ [c]))
    []

/-- Concatenation of the written chunks (the full text handed to
`serializer.dump`). -/
def strConcat : List String → String
  | [] => ""
  | c :: cs => c ++ strConcat cs

/-! ### Concrete inputs used by counterexamples, code-bug evaluations and
witnesses -/

/-- Positional arguments `(3,)`. -/
def exArgs3 : PyList := .cons (.num 3) .nil

/-- A live callable object whose call table maps `(3,)` to `7`. -/
def exCallable : PyVal := .obj .nil (.cons exArgs3 .nil (.num 7) .nil)

/-- The interaction sequence consisting of the single direct call
`proxy(3)`. -/
def exDirectCallSeq : List Interaction := [.directCall exArgs3 .nil]

/-- A directly constructed `PlayedBackCall` for `(3, 4) -> 7` whose name is
the default `"__call__"` (as `PlayedBackCall((3, 4), {}, ...)` would set). -/
def exPBCall : PBEntry :=
  .call (some "__call__") (.cons (.num 3) (.cons (.num 4) .nil)) .nil (.native (.num 7)) 0

/-- A played-back attribute entry `a -> 1`. -/
def exPBAttr : PBEntry := .attr "a" (.native (.num 1)) 1

/-- A played-back attribute entry `b -> 2`. -/
def exPBAttr2 : PBEntry := .attr "b" (.native (.num 2)) 2

/-- Mismatching call arguments `(3, 5)`. -/
def exBadArgs : PyList := .cons (.num 3) (.cons (.num 5) .nil)

/-- Unordered-call recording: first call with argument `1` returned `10`. -/
def exUC_A1 : UCall := ⟨[.num 1], [], .num 10⟩

/-- Unordered-call recording: a call with argument `2` returned `20`. -/
def exUC_B : UCall := ⟨[.num 2], [], .num 20⟩

/-- Unordered-call recording: second call with argument `1` returned `30`. -/
def exUC_A2 : UCall := ⟨[.num 1], [], .num 30⟩

/-! # Theorems -/

mutual

/-- `can_handle_natively` computes exactly the claim's enumeration of
natively serializable values. -/
theorem can_handle_natively_iff : ∀ (v : PyVal), can_handle_natively v = true ↔ NativeSpec v
  | .num n => ⟨fun _ => .num n, fun _ => rfl⟩
  | .str a => ⟨fun _ => .str a, fun _ => rfl⟩
  | .bytes a => ⟨fun _ => .bytes a, fun _ => rfl⟩
  | .pytype a => ⟨fun _ => .pytype a, fun _ => rfl⟩
  | .pynone => ⟨fun _ => .pynone, fun _ => rfl⟩
  | .npDtype a => ⟨fun _ => .npDtype a, fun _ => rfl⟩
  | .npArray a => ⟨fun _ => .npArray a, fun _ => rfl⟩
  | .npDatetime64 a => ⟨fun _ => .npDatetime64 a, fun _ => rfl⟩
  | .npTimedelta64 a => ⟨fun _ => .npTimedelta64 a, fun _ => rfl⟩
  | .tuple xs => by
      simp only [can_handle_natively]
      constructor
      · exact fun hxs => .tuple ((allNative_iff xs).1 hxs)
      · intro hn
        cases hn with
        | tuple h => exact (allNative_iff xs).2 h
  | .pylist xs => by
      simp only [can_handle_natively]
      constructor
      · exact fun hxs => .pylist ((allNative_iff xs).1 hxs)
      · intro hn
        cases hn with
        | pylist h => exact (allNative_iff xs).2 h
  | .pyset xs => by
      simp only [can_handle_natively]
      constructor
      · exact fun hxs => .pyset ((allNative_iff xs).1 hxs)
      · intro hn
        cases hn with
        | pyset h => exact (allNative_iff xs).2 h
  | .dict xs => by
      simp only [can_handle_natively]
      constructor
      · exact fun hxs => .dict ((allNativePairs_iff xs).1 hxs)
      · intro hn
        cases hn with
        | dict h => exact (allNativePairs_iff xs).2 h
  | .obj attrs calls => by
      simp only [can_handle_natively]
      constructor
      · intro h
        exact absurd h (by simp)
      · intro hn
        cases hn

/-- List version of `can_handle_natively_iff`. -/
theorem allNative_iff : ∀ (xs : PyList), allNative xs = true ↔ NativeSpecList xs
  | .nil => ⟨fun _ => .nil, fun _ => rfl⟩
  | .cons x xs => by
      simp only [allNative, Bool.and_eq_true]
      constructor
      · rintro ⟨h1, h2⟩
        exact .cons ((can_handle_natively_iff x).1 h1) ((allNative_iff xs).1 h2)
      · intro hn
        cases hn with
        | cons hx hxs =>
            exact ⟨(can_handle_natively_iff x).2 hx, (allNative_iff xs).2 hxs⟩

/-- Dict version of `can_handle_natively_iff`. -/
theorem allNativePairs_iff : ∀ (xs : DictList), allNativePairs xs = true ↔ NativeSpecDict xs
  | .nil => ⟨fun _ => .nil, fun _ => rfl⟩
  | .cons k v xs => by
      simp only [allNativePairs, Bool.and_eq_true]
      constructor
      · rintro ⟨⟨h1, h2⟩, h3⟩
        exact .cons ((can_handle_natively_iff k).1 h1) ((can_handle_natively_iff v).1 h2)
          ((allNativePairs_iff xs).1 h3)
      · intro hn
        cases hn with
        | cons hk hv hxs =>
            exact ⟨⟨(can_handle_natively_iff k).2 hk, (can_handle_natively_iff v).2 hv⟩,
              (allNativePairs_iff xs).2 hxs⟩

end

/-- C6: an attribute read intercepted by the Recording Proxy stores and
returns the value itself when it is natively serializable (a Number, str,
bytes, type, None, numpy dtype/ndarray/datetime64/timedelta64, or a
tuple/list/set/dict recursively composed of these), and otherwise stores
and returns a fresh Recording Proxy (empty log) wrapping the value, created
at the moment of the read — proxy construction itself (`ObjectRecorder.new`)
wraps nothing and starts from an empty log. -/
theorem C6_native_or_lazy_wrapping (r : ObjectRecorder) (name : String) (t : Int)
    (v : PyVal) (hv : getattr r.obj name = some v) :
    (NativeSpec v →
        recorder_getattribute r name t
          = (.ok (.native v), ⟨r.obj, r.recordings ++ [.attr name (.native v) t]⟩)) ∧
    (¬ NativeSpec v →
        recorder_getattribute r name t
          = (.ok (.wrapped v []), ⟨r.obj, r.recordings ++ [.attr name (.wrapped v []) t]⟩)) ∧
    (ObjectRecorder.new v = ⟨v, []⟩) := by
  refine ⟨?_, ?_, rfl⟩
  · intro hnat
    have hb : can_handle_natively v = true := (can_handle_natively_iff v).2 hnat
    simp [recorder_getattribute, hv, recordedValue, hb]
  · intro hnat
    have hb : can_handle_natively v = false := by
      cases hcb : can_handle_natively v with
      | true => exact absurd ((can_handle_natively_iff v).1 hcb) hnat
      | false => rfl
    simp [recorder_getattribute, hv, recordedValue, hb]

/-- Witness for C6 at a native value (`7`) and a non-native value (an
object). -/
theorem C6_witness :
    recorder_getattribute (ObjectRecorder.new (.obj (.cons "a" (.num 7) .nil) .nil)) "a" 0
      = (.ok (.native (.num 7)),
         ⟨.obj (.cons "a" (.num 7) .nil) .nil, [.attr "a" (.native (.num 7)) 0]⟩) ∧
    recorder_getattribute (ObjectRecorder.new (.obj (.cons "b" exCallable .nil) .nil)) "b" 0
      = (.ok (.wrapped exCallable []),
         ⟨.obj (.cons "b" exCallable .nil) .nil, [.attr "b" (.wrapped exCallable []) 0]⟩) := by
  constructor
  · have h := C6_native_or_lazy_wrapping
      (ObjectRecorder.new (.obj (.cons "a" (.num 7) .nil) .nil)) "a" 0 (.num 7)
      (by simp [ObjectRecorder.new, getattr, findAttr])
    simpa [ObjectRecorder.new] using h.1 (.num 7)
  · have h := C6_native_or_lazy_wrapping
      (ObjectRecorder.new (.obj (.cons "b" exCallable .nil) .nil)) "b" 0 exCallable
      (by simp [ObjectRecorder.new, getattr, findAttr])
    have h2 := h.2.1 (by intro hn; rw [exCallable] at hn; cases hn)
    simpa [ObjectRecorder.new] using h2

/-- C9: an exception raised by the wrapped object's attribute access or call
propagates unchanged and the recording log is left unmodified; an entry is
appended only when the forwarded access or call returns successfully. -/
theorem C9_exceptions_propagate_log_untouched (r : ObjectRecorder) (name : String)
    (args : PyList) (kwargs : KwList) (t : Int) :
    (getattr r.obj name = none →
        recorder_getattribute r name t = (.error .attributeError, r)) ∧
    (∀ v, getattr r.obj name = some v →
        recorder_getattribute r name t
          = (.ok (recordedValue v),
             ⟨r.obj, r.recordings ++ [.attr name (recordedValue v) t]⟩)) ∧
    (callValue r.obj args kwargs = none →
        recorder_call r args kwargs t = (.error .typeError, r)) ∧
    (∀ v, callValue r.obj args kwargs = some v →
        recorder_call r args kwargs t
          = (.ok (recordedValue v),
             ⟨r.obj, r.recordings ++ [.call "__call__" args kwargs (recordedValue v) t]⟩)) := by
  refine ⟨?_, ?_, ?_, ?_⟩
  · intro h; simp [recorder_getattribute, h]
  · intro v h; simp [recorder_getattribute, h]
  · intro h; simp [recorder_call, h]
  · intro v h; simp [recorder_call, h]

/-- Witness for C9: a missing attribute leaves the log empty; a successful
call appends one entry. -/
theorem C9_witness :
    recorder_getattribute (ObjectRecorder.new exCallable) "missing" 0
      = (.error .attributeError, ObjectRecorder.new exCallable) ∧
    recorder_call (ObjectRecorder.new exCallable) exArgs3 .nil 0
      = (.ok (.native (.num 7)),
         ⟨exCallable, [.call "__call__" exArgs3 .nil (.native (.num 7)) 0]⟩) := by
  constructor
  · exact (C9_exceptions_propagate_log_untouched (ObjectRecorder.new exCallable)
      "missing" exArgs3 .nil 0).1 (by simp [ObjectRecorder.new, exCallable, getattr, findAttr])
  · have h := (C9_exceptions_propagate_log_untouched (ObjectRecorder.new exCallable)
      "missing" exArgs3 .nil 0).2.2.2 (.num 7)
      (by simp [ObjectRecorder.new, exCallable, callValue, findCall])
    simpa [ObjectRecorder.new, recordedValue, can_handle_natively] using h

/-- C10: during playback, a name mismatch raises `NonMatchingRequest` without
consuming the mismatched entry — the log is exactly as before — and a
subsequent request with the recorded name still succeeds. -/
theorem C10_mismatch_does_not_consume (e : PBEntry) (rest : List PBEntry)
    (name m : String) (hm : e.pbName = some m) (hne : m ≠ name) :
    player_getattribute (e :: rest) name = (.error .nonMatchingRequest, e :: rest) ∧
    ∃ got, player_getattribute (e :: rest) m = (.ok got, rest) := by
  constructor
  · have : ¬ e.pbName = some name := by
      rw [hm]; simp [hne]
    simp [player_getattribute, this]
  · match e with
    | .attr n v t => exact ⟨.val v, by simp [player_getattribute, hm]⟩
    | .call n a k v t => exact ⟨.callEntry n a k v t, by simp [player_getattribute, hm]⟩

/-- Witness for C10: requesting `b` while `a` is recorded fails and leaves
the log intact; requesting `a` then succeeds. -/
theorem C10_witness :
    player_getattribute [exPBAttr] "b" = (.error .nonMatchingRequest, [exPBAttr]) ∧
    ∃ got, player_getattribute [exPBAttr] "a" = (.ok got, []) :=
  C10_mismatch_does_not_consume exPBAttr [] "b" "a" (by simp [exPBAttr, PBEntry.pbName])
    (by decide)

/-- C8: `move_to(instant, monotonic=True)` on the engaged virtual clock is a
no-op whenever `instant` is not strictly after the current time, moves to
`instant` whenever it is strictly later, and with `monotonic=False` always
moves to `instant`. -/
theorem C8_clock_monotonic_move_to (current target : Int) (monotonic : Bool) :
    (monotonic = true → target ≤ current →
        global_time_move_to current target monotonic = current) ∧
    (monotonic = true → current < target →
        global_time_move_to current target monotonic = target) ∧
    (monotonic = false → global_time_move_to current target monotonic = target) := by
  refine ⟨?_, ?_, ?_⟩ <;> intro h1 <;> subst h1 <;>
    simp [global_time_move_to] <;> omega

/-- Witness for C8 at `current = 5`: `move_to 3` and `move_to 5` are no-ops,
`move_to 9` advances, non-monotonic `move_to 3` rewinds. -/
theorem C8_witness :
    global_time_move_to 5 3 true = 5 ∧ global_time_move_to 5 5 true = 5 ∧
    global_time_move_to 5 9 true = 9 ∧ global_time_move_to 5 3 false = 3 :=
  ⟨(C8_clock_monotonic_move_to 5 3 true).1 rfl (by norm_num),
   (C8_clock_monotonic_move_to 5 5 true).1 rfl (by norm_num),
   (C8_clock_monotonic_move_to 5 9 true).2.1 rfl (by norm_num),
   (C8_clock_monotonic_move_to 5 3 false).2.2 rfl⟩

/-- C4: mode resolution of `recording_switch`: `RECORD` builds a live object
and returns a Recording Proxy only when no log file exists and returns a
Playback Proxy when it does; `LIVE` behaves exactly like `PLAYBACK`; any mode
whose effective mode is `PLAYBACK` raises `RecordingFileNotFoundError` when
the file is missing, with a message explaining how to switch to `RECORD`
mode. -/
theorem C4_recording_switch_mode_resolution (fe : Bool) (m : RecMode) (fn ev : String) :
    switch_enter .RECORD false fn ev = ⟨true, .recordingProxy⟩ ∧
    switch_enter .RECORD true fn ev = ⟨false, .playbackProxy⟩ ∧
    (switch_enter .RECORD fe fn ev).builds_live = !fe ∧
    switch_enter .LIVE fe fn ev = switch_enter .PLAYBACK fe fn ev ∧
    (effective_rec_mode m fe = .PLAYBACK → fe = false →
      switch_enter m fe fn ev
        = ⟨false, .recordingFileNotFound
            ("No recording file `" ++ fn ++ "`. Create one by setting env var `"
              ++ ev ++ "=RECORD`.")⟩) := by
  refine ⟨by rfl, by rfl, by cases fe <;> rfl, by cases fe <;> rfl, ?_⟩
  intro heff hfe
  subst hfe
  simp [switch_enter, heff, recording_not_found_msg]

/-- Witness for C4: `PLAYBACK` (and `LIVE`, and `RECORD`) with a missing file
raise the remediation error. -/
theorem C4_witness :
    switch_enter .PLAYBACK false "f.json" "REC_MODE"
      = ⟨false, .recordingFileNotFound
          ("No recording file `" ++ "f.json" ++ "`. Create one by setting env var `"
            ++ "REC_MODE" ++ "=RECORD`.")⟩ :=
  (C4_recording_switch_mode_resolution false .PLAYBACK "f.json" "REC_MODE").2.2.2.2 rfl rfl

/-- C3 is false on the code (code bug): when a played-back proxy is invoked
with mismatching arguments, the popped call record is *not* pushed back and
`NonMatchingCallArgs` does not propagate; instead the broken undo
(`self._append(recording)`, resolved through the patched `__getattribute__`)
plays back an attribute named `"_append"`, raising `NoCallRecordsLeft` on a
drained log (entry lost) or `NonMatchingRequest` otherwise (entry still
lost). -/
theorem C3_call_mismatch_undo_is_broken :
    player_call [exPBCall] exBadArgs .nil = (.error .noCallRecordsLeft, []) ∧
    player_call [exPBCall, exPBAttr] exBadArgs .nil
      = (.error .nonMatchingRequest, [exPBAttr]) := by
  constructor <;>
    simp [player_call, player_getattribute, pbcall_invoke, exPBCall, exPBAttr,
      exBadArgs, PBEntry.pbName]

/-- C1 is false on the code (code bug): record a single direct call
`proxy(3) == 7`; serializing drops the default `"__call__"` name and
deserialization rebuilds the entry with name `None`, so replaying the same
call raises `NonMatchingRequest` (and the log is not drained) instead of
returning `7`. -/
theorem C1_roundtrip_direct_call_fails :
    (record_run (ObjectRecorder.new exCallable) 0 exDirectCallSeq).1
      = [Obs.val (.num 7)] ∧
    serLog (record_run (ObjectRecorder.new exCallable) 0 exDirectCallSeq).2.recordings
      = [.call none exArgs3 .nil (.native (.num 7)) 0] ∧
    playback_run
        (deserLog (serLog
          (record_run (ObjectRecorder.new exCallable) 0 exDirectCallSeq).2.recordings))
        exDirectCallSeq
      = ([.err .nonMatchingRequest],
         [.call none exArgs3 .nil (.native (.num 7)) 0]) := by
  refine ⟨?_, ?_, ?_⟩ <;>
    simp [record_run, recorder_call, ObjectRecorder.new, exCallable, exArgs3,
      exDirectCallSeq, callValue, findCall, recordedValue, can_handle_natively,
      serLog, serEntry, serValTime, serRA, deserLog, deserEntry, deserVal,
      playback_run, player_call, player_getattribute, PBEntry.pbName,
      pbcall_invoke, obsOfRA, obsOfPB]

/-- A matching front entry is popped and the request succeeds. -/
theorem pb_get_ok (e : PBEntry) (rest : List PBEntry) (n : String)
    (h : e.pbName = some n) :
    ∃ got, player_getattribute (e :: rest) n = (.ok got, rest) := by
  match e with
  | .attr a v t => exact ⟨.val v, by simp [player_getattribute, h]⟩
  | .call a b k v t => exact ⟨.callEntry a b k v t, by simp [player_getattribute, h]⟩

/-- A non-matching front entry raises `NonMatchingRequest` and is not
consumed. -/
theorem pb_get_mismatch (e : PBEntry) (rest : List PBEntry) (name : String)
    (h : e.pbName ≠ some name) :
    player_getattribute (e :: rest) name = (.error .nonMatchingRequest, e :: rest) := by
  simp [player_getattribute, h]

/-- Replaying exactly the recorded names succeeds and drains the log. -/
theorem replay_names_success : ∀ (ns : List String) (l : List PBEntry),
    l.map PBEntry.pbName = ns.map some → replay_names l ns = (none, [])
  | [], l, hnames => by
      have : l = [] := by
        cases l with
        | nil => rfl
        | cons e l2 => simp at hnames
      subst this
      rfl
  | n :: ns2, l, hnames => by
      cases l with
      | nil => simp at hnames
      | cons e l2 =>
        simp only [List.map_cons, List.cons.injEq] at hnames
        obtain ⟨got, hg⟩ := pb_get_ok e l2 n hnames.1
        simp only [replay_names, hg]
        exact replay_names_success ns2 l2 hnames.2

/-- Replaying the recorded names followed by one extra request exhausts the
log and raises `NoCallRecordsLeft`. -/
theorem replay_names_exhaust : ∀ (ns : List String) (l : List PBEntry) (x : String),
    l.map PBEntry.pbName = ns.map some →
    (replay_names l (ns ++ [x])).1 = some .noCallRecordsLeft
  | [], l, x, hnames => by
      have : l = [] := by
        cases l with
        | nil => rfl
        | cons e l2 => simp at hnames
      subst this
      rfl
  | n :: ns2, l, x, hnames => by
      cases l with
      | nil => simp at hnames
      | cons e l2 =>
        simp only [List.map_cons, List.cons.injEq] at hnames
        obtain ⟨got, hg⟩ := pb_get_ok e l2 n hnames.1
        simp only [List.cons_append, replay_names, hg]
        exact replay_names_exhaust ns2 l2 x hnames.2

/-- Replaying the recorded names in any other order hits a first difference
and raises `NonMatchingRequest`. -/
theorem replay_names_perm : ∀ (reqs ns : List String) (l : List PBEntry),
    l.map PBEntry.pbName = ns.map some → reqs.Perm ns → reqs ≠ ns →
    (replay_names l reqs).1 = some .nonMatchingRequest
  | [], ns, l, _, hperm, hne => absurd hperm.symm.eq_nil (fun h => hne h.symm)
  | r :: rs, ns, l, hnames, hperm, hne => by
      cases ns with
      | nil => exact absurd hperm.eq_nil (by simp)
      | cons n ns2 =>
        cases l with
        | nil => simp at hnames
        | cons e l2 =>
          simp only [List.map_cons, List.cons.injEq] at hnames
          by_cases hr : r = n
          · subst hr
            obtain ⟨got, hg⟩ := pb_get_ok e l2 r hnames.1
            simp only [replay_names, hg]
            refine replay_names_perm rs ns2 l2 hnames.2 (hperm.cons_inv) ?_
            intro hEq
            exact hne (by rw [hEq])
          · have hmm : e.pbName ≠ some r := by
              rw [hnames.1]
              simp [Ne.symm hr]
            simp [replay_names, pb_get_mismatch e l2 r hmm]

/-- C2: on a played-back proxy, any read on an empty log raises
`NoCallRecordsLeft`; a read whose name differs from the front entry raises
`NonMatchingRequest`; consequently replaying the recorded names in any order
other than the recorded one raises `NonMatchingRequest`, and issuing one more
request than recorded raises `NoCallRecordsLeft`. -/
theorem C2_order_sensitivity_and_exhaustion (l : List PBEntry)
    (ns reqs : List String) (x : String)
    (hnames : l.map PBEntry.pbName = ns.map some) :
    (∀ name, player_getattribute [] name = (.error .noCallRecordsLeft, [])) ∧
    (∀ (e : PBEntry) (rest : List PBEntry) name, e.pbName ≠ some name →
        player_getattribute (e :: rest) name
          = (.error .nonMatchingRequest, e :: rest)) ∧
    (reqs.Perm ns → reqs ≠ ns →
        (replay_names l reqs).1 = some .nonMatchingRequest) ∧
    (replay_names l (ns ++ [x])).1 = some .noCallRecordsLeft := by
  refine ⟨fun _ => rfl, fun e rest name h => pb_get_mismatch e rest name h, ?_, ?_⟩
  · exact fun hperm hne => replay_names_perm reqs ns l hnames hperm hne
  · exact replay_names_exhaust ns l x hnames

/-- Witness for C2 on the log `[a -> 1, b -> 2]`: replaying `b, a` fails with
`NonMatchingRequest`; replaying `a, b, c` fails with `NoCallRecordsLeft`. -/
theorem C2_witness :
    (replay_names [exPBAttr, exPBAttr2] ["b", "a"]).1 = some .nonMatchingRequest ∧
    (replay_names [exPBAttr, exPBAttr2] (["a", "b"] ++ ["c"])).1
      = some .noCallRecordsLeft := by
  have h := C2_order_sensitivity_and_exhaustion [exPBAttr, exPBAttr2]
    ["a", "b"] ["b", "a"] "c" (by simp [exPBAttr, exPBAttr2, PBEntry.pbName])
  exact ⟨h.2.2.1 (by decide) (by decide), h.2.2.2⟩

/-- Steps other than the final rename never touch the canonical path. -/
theorem applyStep_canonical (fs : FileState) (st : SaveStep) (h : st ≠ .renameTemp) :
    (applyStep fs st).canonical = fs.canonical := by
  cases st with
  | openTemp => rfl
  | writeChunk c => rfl
  | renameTemp => exact absurd rfl h

/-- A step sequence without a rename leaves the canonical path untouched in
every visited state. -/
theorem statesOf_no_rename : ∀ (steps : List SaveStep),
    SaveStep.renameTemp ∉ steps → ∀ (fs : FileState),
    ∀ s ∈ statesOf fs steps, s.canonical = fs.canonical
  | [], _, fs, s, hs => by
      simp only [statesOf, List.mem_singleton] at hs
      subst hs; rfl
  | st :: rest, hmem, fs, s, hs => by
      simp only [statesOf, List.mem_cons] at hs
      rcases hs with rfl | hs
      · rfl
      · have h1 : st ≠ .renameTemp := by
          intro h; exact hmem (h ▸ List.mem_cons_self st rest)
        have h2 : SaveStep.renameTemp ∉ rest := by
          intro h; exact hmem (List.mem_cons_of_mem st h)
        rw [statesOf_no_rename rest h2 (applyStep fs st) s hs,
          applyStep_canonical fs st h1]

/-- Folding the chunk writes appends the chunks to the temporary file. -/
theorem writeChunk_fold : ∀ (cs : List String) (c0 : Option String) (p : String),
    (cs.map SaveStep.writeChunk).foldl applyStep ⟨c0, some p⟩
      = ⟨c0, some (p ++ strConcat cs)⟩
  | [], c0, p => by
      simp [strConcat, String.append_empty]
  | c :: cs, c0, p => by
      have h1 : applyStep ⟨c0, some p⟩ (.writeChunk c) = ⟨c0, some (p ++ c)⟩ := rfl
      simp only [List.map_cons, List.foldl_cons, h1, writeChunk_fold cs c0 (p ++ c),
        strConcat, String.append_assoc]

/-- The state reached by folding the steps is among the visited states. -/
theorem foldl_mem_statesOf : ∀ (steps : List SaveStep) (fs : FileState),
    steps.foldl applyStep fs ∈ statesOf fs steps
  | [], fs => by simp [statesOf]
  | st :: rest, fs => by
      simp only [statesOf, List.foldl_cons, List.mem_cons]
      exact Or.inr (foldl_mem_statesOf rest (applyStep fs st))

/-- During chunked writing followed by the rename, the canonical path holds
either its old content or the complete new content — never a prefix. -/
theorem write_then_rename_states : ∀ (cs : List String) (c0 : Option String) (p : String),
    ∀ s ∈ statesOf ⟨c0, some p⟩ (cs.map SaveStep.writeChunk ++ [SaveStep.renameTemp]),
      s.canonical = c0 ∨ s.canonical = some (p ++ strConcat cs)
  | [], c0, p => by
      intro s hs
      simp only [List.map_nil, List.nil_append, statesOf, List.mem_cons,
        List.not_mem_nil, or_false] at hs
      rcases hs with rfl | rfl
      · exact Or.inl rfl
      · right
        show (applyStep ⟨c0, some p⟩ .renameTemp).canonical = some (p ++ strConcat [])
        rw [strConcat, String.append_empty]
        rfl
  | c :: cs, c0, p => by
      intro s hs
      simp only [List.map_cons, List.cons_append, statesOf, List.mem_cons] at hs
      rcases hs with rfl | hs
      · exact Or.inl rfl
      · have h1 : applyStep ⟨c0, some p⟩ (.writeChunk c) = ⟨c0, some (p ++ c)⟩ := rfl
        rw [h1] at hs
        rcases write_then_rename_states cs c0 (p ++ c) s hs with h | h
        · exact Or.inl h
        · right
          rw [h, strConcat, String.append_assoc]

/-- C5: on scope exit with no active exception and effective mode
`OVERWRITE`, the rendered `{version, start_time, data}` document ends up at
the canonical path via write-temp-then-rename, and no intermediate state ever
exposes partial content at the canonical path; on an active exception or any
other effective mode nothing is written; if the write is interrupted before
completion the canonical path is untouched throughout and the temporary file
is deleted. -/
theorem C5_atomic_overwrite_commit (excActive : Bool) (m : RecMode) (fileExists : Bool)
    (fs : FileState) (doc : RecDocument) (chunks : List String)
    (hchunks : strConcat chunks = renderDoc doc) :
    (excActive = false → effective_rec_mode m fileExists = .OVERWRITE →
        ((saveSteps chunks).foldl applyStep fs = ⟨some (renderDoc doc), none⟩ ∧
         (saveSteps chunks).foldl applyStep fs
           ∈ switch_exit excActive m fileExists fs chunks ∧
         ∀ s ∈ switch_exit excActive m fileExists fs chunks,
           s.canonical = fs.canonical ∨ s.canonical = some (renderDoc doc))) ∧
    ((excActive = true ∨ effective_rec_mode m fileExists ≠ .OVERWRITE) →
        switch_exit excActive m fileExists fs chunks = [fs]) ∧
    (∀ cs, ∀ s ∈ statesOf fs (abortSteps cs), s.canonical = fs.canonical) ∧
    (∀ cs, (deleteTemp ((abortSteps cs).foldl applyStep fs)).canonical
        = fs.canonical) := by
  have hopen : applyStep fs .openTemp = ⟨fs.canonical, some ""⟩ := rfl
  refine ⟨?_, ?_, ?_, ?_⟩
  · intro hexc heff
    subst hexc
    have hswitch : switch_exit false m fileExists fs chunks
        = statesOf fs (saveSteps chunks) := by
      simp [switch_exit, heff]
    have hfold : (saveSteps chunks).foldl applyStep fs = ⟨some (renderDoc doc), none⟩ := by
      simp only [saveSteps, List.foldl_cons, hopen, List.foldl_append,
        writeChunk_fold chunks fs.canonical "", String.empty_append, hchunks]
      rfl
    refine ⟨hfold, ?_, ?_⟩
    · rw [hswitch]; exact foldl_mem_statesOf _ fs
    · intro s hs
      rw [hswitch] at hs
      simp only [saveSteps, statesOf, List.mem_cons] at hs
      rcases hs with rfl | hs
      · exact Or.inl rfl
      · rw [hopen] at hs
        rcases write_then_rename_states chunks fs.canonical "" s hs with h | h
        · exact Or.inl h
        · rw [String.empty_append, hchunks] at h
          exact Or.inr h
  · intro hother
    rcases hother with rfl | hne
    · rfl
    · simp [switch_exit, hne]
  · intro cs s hs
    refine statesOf_no_rename (abortSteps cs) ?_ fs s hs
    simp only [abortSteps, List.mem_cons, List.mem_map]
    rintro (h | ⟨c, _, h⟩) <;> exact SaveStep.noConfusion h
  · intro cs
    have : (abortSteps cs).foldl applyStep fs = ⟨fs.canonical, some (strConcat cs)⟩ := by
      simp only [abortSteps, List.foldl_cons, hopen, writeChunk_fold cs fs.canonical "",
        String.empty_append]
    rw [this]
    rfl

/-- Witness for C5: committing the document `{version 0, start 3, no data}`
over old content installs exactly the rendered document. -/
theorem C5_witness :
    (saveSteps [renderDoc ⟨0, 3, []⟩]).foldl applyStep ⟨some "old", none⟩
      = ⟨some (renderDoc ⟨0, 3, []⟩), none⟩ ∧
    switch_exit true .OVERWRITE false ⟨some "old", none⟩ [renderDoc ⟨0, 3, []⟩]
      = [⟨some "old", none⟩] := by
  have h := C5_atomic_overwrite_commit false .OVERWRITE false ⟨some "old", none⟩
    ⟨0, 3, []⟩ [renderDoc ⟨0, 3, []⟩] (by rw [strConcat, strConcat, String.append_empty])
  have h2 := C5_atomic_overwrite_commit true .OVERWRITE false ⟨some "old", none⟩
    ⟨0, 3, []⟩ [renderDoc ⟨0, 3, []⟩] (by rw [strConcat, strConcat, String.append_empty])
  exact ⟨(h.1 rfl rfl).1, h2.2.1 (Or.inl rfl)⟩

/-- Looking up the key just inserted finds the new value. -/
theorem dictFind_insert_self {K V : Type} [DecidableEq K] :
    ∀ (m : List (K × V)) (k : K) (v : V), dictFind (dictInsert m k v) k = some v
  | [], k, v => by simp [dictInsert, dictFind]
  | (k2, v2) :: rest, k, v => by
      by_cases h : k2 = k
      · simp [dictInsert, dictFind, h]
      · simp [dictInsert, dictFind, h, dictFind_insert_self rest k v]

/-- Inserting a different key does not affect a lookup. -/
theorem dictFind_insert_ne {K V : Type} [DecidableEq K] :
    ∀ (m : List (K × V)) (k kq : K) (v : V), kq ≠ k →
      dictFind (dictInsert m k v) kq = dictFind m kq
  | [], k, kq, v, hne => by simp [dictInsert, dictFind, Ne.symm hne]
  | (k2, v2) :: rest, k, kq, v, hne => by
      by_cases h : k2 = k
      · subst h
        simp [dictInsert, dictFind, hne, Ne.symm hne]
      · by_cases h2 : k2 = kq
        · subst h2
          simp [dictInsert, dictFind, h]
        · simp [dictInsert, dictFind, h, h2, dictFind_insert_ne rest k kq v hne]

/-- Inserting a fresh key appends it at the end (Python dict semantics). -/
theorem dictInsert_append {K V : Type} [DecidableEq K] :
    ∀ (m : List (K × V)) (k : K) (v : V), k ∉ m.map Prod.fst →
      dictInsert m k v = m ++ [(k, v)]
  | [], k, v, _ => rfl
  | (k2, v2) :: rest, k, v, hk => by
      simp only [List.map_cons, List.mem_cons] at hk
      push_neg at hk
      simp [dictInsert, Ne.symm hk.1, dictInsert_append rest k v hk.2]

/-- Folding dict inserts of groups with pairwise-fresh keys appends them in
order. -/
theorem foldl_dictInsert_nodup {K V : Type} [DecidableEq K] :
    ∀ (gs acc : List (K × List V)),
      ((acc.map Prod.fst) ++ (gs.map Prod.fst)).Nodup →
      gs.foldl (fun m p => dictInsert m p.1 p.2) acc = acc ++ gs
  | [], acc, _ => by simp
  | (k, g) :: gs2, acc, hnodup => by
      have hk : k ∉ acc.map Prod.fst := by
        rw [List.nodup_append] at hnodup
        intro hmem
        exact hnodup.2.2 hmem (List.mem_cons_self k _)
      have hrest : (((acc ++ [(k, g)]).map Prod.fst) ++ (gs2.map Prod.fst)).Nodup := by
        have heq : ((acc ++ [(k, g)]).map Prod.fst) ++ (gs2.map Prod.fst)
            = (acc.map Prod.fst) ++ (((k, g) :: gs2).map Prod.fst) := by
          simp [List.map_append, List.append_assoc]
        rw [heq]
        exact hnodup
      simp only [List.foldl_cons, dictInsert_append acc k g hk,
        foldl_dictInsert_nodup gs2 (acc ++ [(k, g)]) hrest, List.append_assoc,
        List.singleton_append]

/-- Every group key produced by `groupRuns` is the hash of some recorded
call. -/
theorem groupRuns_keys_mem {K : Type} [DecidableEq K] (h : ArgHasher K) :
    ∀ (calls : List UCall) (p : K × List UCall),
      p ∈ groupRuns h calls → ∃ c ∈ calls, p.1 = hashOf h c
  | [], p, hmem => by simp [groupRuns] at hmem
  | c :: cs, p, hmem => by
      rw [groupRuns] at hmem
      cases hrec : groupRuns h cs with
      | nil =>
          rw [hrec] at hmem
          simp only [List.mem_singleton] at hmem
          subst hmem
          exact ⟨c, List.mem_cons_self c cs, rfl⟩
      | cons q rest =>
          rw [hrec] at hmem
          obtain ⟨qk, qg⟩ := q
          have hmem1 : p ∈ (if hashOf h c = qk then (hashOf h c, c :: qg) :: rest
              else (hashOf h c, [c]) :: (qk, qg) :: rest) := hmem
          by_cases hc : hashOf h c = qk
          · rw [if_pos hc] at hmem1
            rcases List.mem_cons.mp hmem1 with rfl | hmem2
            · exact ⟨c, List.mem_cons_self c cs, rfl⟩
            · have hin : p ∈ groupRuns h cs := by
                rw [hrec]; exact List.mem_cons_of_mem _ hmem2
              obtain ⟨c2, hc2, hk⟩ := groupRuns_keys_mem h cs p hin
              exact ⟨c2, List.mem_cons_of_mem c hc2, hk⟩
          · rw [if_neg hc] at hmem1
            rcases List.mem_cons.mp hmem1 with rfl | hmem2
            · exact ⟨c, List.mem_cons_self c cs, rfl⟩
            · have hin : p ∈ groupRuns h cs := by
                rw [hrec]; exact hmem2
              obtain ⟨c2, hc2, hk⟩ := groupRuns_keys_mem h cs p hin
              exact ⟨c2, List.mem_cons_of_mem c hc2, hk⟩

/-- A key absent from all groups stays absent through the fold. -/
theorem dictFind_foldl_none {K V : Type} [DecidableEq K] :
    ∀ (gs : List (K × List V)) (acc : List (K × List V)) (k : K),
      dictFind acc k = none → (∀ p ∈ gs, p.1 ≠ k) →
      dictFind (gs.foldl (fun m p => dictInsert m p.1 p.2) acc) k = none
  | [], acc, k, hacc, _ => hacc
  | (k2, g) :: gs2, acc, k, hacc, hall => by
      have hne : k ≠ k2 := by
        intro hEq
        exact hall (k2, g) (List.mem_cons_self _ _) (by rw [hEq])
      simp only [List.foldl_cons]
      refine dictFind_foldl_none gs2 (dictInsert acc k2 g) k ?_ ?_
      · rw [dictFind_insert_ne acc k2 k g hne]; exact hacc
      · exact fun p hp => hall p (List.mem_cons_of_mem _ hp)

/-- With pairwise-distinct hashes every run is a singleton. -/
theorem groupRuns_distinct {K : Type} [DecidableEq K] (h : ArgHasher K) :
    ∀ (calls : List UCall), (calls.map (hashOf h)).Nodup →
      groupRuns h calls = calls.map (fun c => (hashOf h c, [c]))
  | [], _ => rfl
  | c :: cs, hnodup => by
      have htail : (cs.map (hashOf h)).Nodup := by
        simp only [List.map_cons, List.nodup_cons] at hnodup
        exact hnodup.2
      have hhead : hashOf h c ∉ cs.map (hashOf h) := by
        simp only [List.map_cons, List.nodup_cons] at hnodup
        exact hnodup.1
      rw [groupRuns, groupRuns_distinct h cs htail]
      cases cs with
      | nil => rfl
      | cons c2 cs2 =>
          have hne : hashOf h c ≠ hashOf h c2 := by
            simp only [List.map_cons, List.mem_cons] at hhead
            push_neg at hhead
            exact hhead.1
          simp [hne]

/-- With pairwise-distinct hashes the player's buckets are one singleton
bucket per call, in recording order. -/
theorem buildBuckets_distinct {K : Type} [DecidableEq K] (h : ArgHasher K)
    (calls : List UCall) (hnodup : (calls.map (hashOf h)).Nodup) :
    buildBuckets h calls = calls.map (fun c => (hashOf h c, [c])) := by
  rw [buildBuckets, groupRuns_distinct h calls hnodup]
  have hkeys : ((([] : List (K × List UCall)).map Prod.fst)
      ++ ((calls.map (fun c => (hashOf h c, [c]))).map Prod.fst)).Nodup := by
    simp only [List.map_nil, List.nil_append, List.map_map]
    simpa [Function.comp_def] using hnodup
  simpa using foldl_dictInsert_nodup (calls.map (fun c => (hashOf h c, [c]))) [] hkeys

/-- Lookup in the singleton-bucket map finds the unique call with the given
hash. -/
theorem dictFind_singleton_map {K : Type} [DecidableEq K] (h : ArgHasher K) :
    ∀ (pre : List UCall) (c : UCall) (post : List UCall),
      hashOf h c ∉ pre.map (hashOf h) →
      dictFind ((pre ++ c :: post).map (fun x => (hashOf h x, [x]))) (hashOf h c)
        = some [c]
  | [], c, post, _ => by simp [dictFind]
  | p :: pre, c, post, hmem => by
      simp only [List.map_cons, List.mem_cons] at hmem
      push_neg at hmem
      simp only [List.cons_append, List.map_cons, dictFind, if_neg (Ne.symm hmem.1)]
      exact dictFind_singleton_map h pre c post hmem.2

/-- Removing the unique call's bucket erases exactly that call from the
singleton-bucket map. -/
theorem dictRemove_singleton_map {K : Type} [DecidableEq K] (h : ArgHasher K) :
    ∀ (pre : List UCall) (c : UCall) (post : List UCall),
      hashOf h c ∉ pre.map (hashOf h) →
      dictRemove ((pre ++ c :: post).map (fun x => (hashOf h x, [x]))) (hashOf h c)
        = (pre ++ post).map (fun x => (hashOf h x, [x]))
  | [], c, post, _ => by simp [dictRemove]
  | p :: pre, c, post, hmem => by
      simp only [List.map_cons, List.mem_cons] at hmem
      push_neg at hmem
      simp only [List.cons_append, List.map_cons, dictRemove, if_neg (Ne.symm hmem.1)]
      exact congrArg (List.cons (hashOf h p, [p]))
        (dictRemove_singleton_map h pre c post hmem.2)

/-- Playing the unique call with a given hash returns its recorded value and
leaves exactly the buckets of the other calls. -/
theorem ucp_call_distinct {K : Type} [DecidableEq K] (h : ArgHasher K)
    (pre : List UCall) (c : UCall) (post : List UCall)
    (hnodup : ((pre ++ c :: post).map (hashOf h)).Nodup) :
    ucp_call h (buildBuckets h (pre ++ c :: post)) c.args c.kwargs
      = (.ok c.value, buildBuckets h (pre ++ post)) := by
  have hmid : ((hashOf h c) :: ((pre ++ post).map (hashOf h))).Nodup := by
    have := hnodup
    rw [List.map_append, List.map_cons, List.nodup_middle] at this
    simpa [List.map_append] using this
  have hpre : hashOf h c ∉ pre.map (hashOf h) := by
    have h1 := (List.nodup_cons.mp hmid).1
    intro hc
    exact h1 (by rw [List.map_append]; exact List.mem_append_left _ hc)
  have hrest : ((pre ++ post).map (hashOf h)).Nodup := (List.nodup_cons.mp hmid).2
  rw [buildBuckets_distinct h _ hnodup, buildBuckets_distinct h _ hrest]
  show ucp_call h _ c.args c.kwargs = _
  rw [ucp_call]
  have hk : h c.args c.kwargs = hashOf h c := rfl
  rw [hk, dictFind_singleton_map h pre c post hpre]
  show (Except.ok c.value,
      dictRemove ((pre ++ c :: post).map (fun x => (hashOf h x, [x]))) (hashOf h c))
    = (Except.ok c.value, (pre ++ post).map (fun x => (hashOf h x, [x])))
  rw [dictRemove_singleton_map h pre c post hpre]

/-- With pairwise-distinct hashes, playing back the calls in any order
returns each call's recorded value and drains all buckets. -/
theorem ucp_run_distinct {K : Type} [DecidableEq K] (h : ArgHasher K) :
    ∀ (q calls : List UCall), (calls.map (hashOf h)).Nodup → q.Perm calls →
      ucp_run h (buildBuckets h calls) (q.map fun c2 => (c2.args, c2.kwargs))
        = (q.map fun c2 => Except.ok c2.value, [])
  | [], calls, _, hperm => by
      have : calls = [] := hperm.symm.eq_nil
      subst this
      rfl
  | c :: q2, calls, hnodup, hperm => by
      have hc : c ∈ calls := hperm.subset (List.mem_cons_self c q2)
      obtain ⟨pre, post, rfl⟩ := List.append_of_mem hc
      have hstep := ucp_call_distinct h pre c post hnodup
      have hmid : ((hashOf h c) :: ((pre ++ post).map (hashOf h))).Nodup := by
        have := hnodup
        rw [List.map_append, List.map_cons, List.nodup_middle] at this
        simpa [List.map_append] using this
      have hrest : ((pre ++ post).map (hashOf h)).Nodup := (List.nodup_cons.mp hmid).2
      have hperm2 : q2.Perm (pre ++ post) := by
        have h1 : (c :: q2).Perm (c :: (pre ++ post)) :=
          hperm.trans List.perm_middle
        exact h1.cons_inv
      simp only [List.map_cons, ucp_run, hstep,
        ucp_run_distinct h q2 (pre ++ post) hrest hperm2]

/-- C7 corrected: the unordered player groups the recorded calls into
*consecutive runs* of equal hashes, keeping only the most recent run per
hash; a playback call whose hash has no kept bucket — in particular any
unrecorded hash — raises `NoCallEntryForArgs`, and otherwise the
most-recently-inserted entry of the kept run is removed and returned (LIFO);
for recorded calls with pairwise-distinct hashes, every playback call
returns exactly the value recorded for its arguments, in any call order,
draining the buckets. -/
theorem C7_amended_unordered_player {K : Type} [DecidableEq K] (h : ArgHasher K)
    (calls q : List UCall) (c : UCall) (cs : List UCall)
    (args : List PyVal) (kwargs : List (String × PyVal)) :
    ((∀ c2 ∈ calls, hashOf h c2 ≠ h args kwargs) →
        ucp_call h (buildBuckets h calls) args kwargs
          = (.error .noCallEntryForArgs, buildBuckets h calls)) ∧
    ((∀ x ∈ c :: cs, hashOf h x = h args kwargs) →
        ∀ lastc, (c :: cs).getLast? = some lastc →
        ucp_call h (buildBuckets h (c :: cs)) args kwargs
          = (.ok lastc.value,
             if (c :: cs).dropLast.isEmpty then []
             else [(h args kwargs, (c :: cs).dropLast)])) ∧
    ((calls.map (hashOf h)).Nodup → q.Perm calls →
        ucp_run h (buildBuckets h calls) (q.map fun c2 => (c2.args, c2.kwargs))
          = (q.map fun c2 => Except.ok c2.value, [])) := by
  refine ⟨?_, ?_, fun hnodup hperm => ucp_run_distinct h q calls hnodup hperm⟩
  · intro hall
    have hfind : dictFind (buildBuckets h calls) (h args kwargs) = none := by
      rw [buildBuckets]
      refine dictFind_foldl_none _ [] _ rfl ?_
      intro p hp
      obtain ⟨c2, hc2, hk⟩ := groupRuns_keys_mem h calls p hp
      rw [hk]
      exact hall c2 hc2
    rw [ucp_call, hfind]
  · intro hall lastc hlast
    have hgr : groupRuns h (c :: cs) = [(h args kwargs, c :: cs)] := by
      clear hlast
      induction cs generalizing c with
      | nil => simp [groupRuns, hall c (List.mem_cons_self c [])]
      | cons c2 cs2 ih =>
          have h2 : ∀ x ∈ c2 :: cs2, hashOf h x = h args kwargs := by
            intro x hx
            exact hall x (List.mem_cons_of_mem c hx)
          rw [groupRuns, ih c2 h2]
          simp [hall c (List.mem_cons_self c _)]
    have hbb : buildBuckets h (c :: cs) = [(h args kwargs, c :: cs)] := by
      rw [buildBuckets, hgr]
      rfl
    rw [hbb, ucp_call]
    simp [dictFind, hlast, dictRemove, dictInsert]

/-- C7 counterexample: recording `f(1) = 10`, `f(2) = 20`, `f(1) = 30` (equal
hashes not adjacent) and playing back hash `1` twice: the code returns `30`
and then raises `NoCallEntryForArgs`, although a recorded entry for that hash
remains unreturned — under the claim's "all calls grouped by hash" model the
second call returns `10`. -/
theorem C7_counterexample_nonadjacent_equal_hashes :
    (ucp_run general_arg_hasher
        (buildBuckets general_arg_hasher [exUC_A1, exUC_B, exUC_A2])
        [([.num 1], []), ([.num 1], [])]).1
      = [.ok (.num 30), .error .noCallEntryForArgs] ∧
    (ucp_run general_arg_hasher
        (claimBuckets general_arg_hasher [exUC_A1, exUC_B, exUC_A2])
        [([.num 1], []), ([.num 1], [])]).1
      = [.ok (.num 30), .ok (.num 10)] := by
  constructor <;> rfl

/-- Witness for the amended C7: with the two distinct-hash recordings
`f(1) = 10`, `f(2) = 20`, an unrecorded hash errors and reversed-order
playback returns the per-argument values. -/
theorem C7_witness :
    ucp_call general_arg_hasher (buildBuckets general_arg_hasher [exUC_A1, exUC_B])
        [.num 5] []
      = (.error .noCallEntryForArgs, buildBuckets general_arg_hasher [exUC_A1, exUC_B]) ∧
    ucp_run general_arg_hasher (buildBuckets general_arg_hasher [exUC_A1, exUC_B])
        ([exUC_B, exUC_A1].map fun c2 => (c2.args, c2.kwargs))
      = ([exUC_B, exUC_A1].map fun c2 => Except.ok c2.value, []) := by
  have h := C7_amended_unordered_player general_arg_hasher [exUC_A1, exUC_B]
      [exUC_B, exUC_A1] exUC_A1 [] [.num 5] []
  exact ⟨h.1 (by decide), h.2.2 (by decide) (by decide)⟩

end JZ
